import Mathlib

/-!
Verification development for the assignment-generation core of the
Le-Grand-Jeu-de-lIle-de-Re repository.

The definitions below are a shallow embedding of `server/storage.ts`
(class `DatabaseStorage`, chiefly `generateAssignments` and `verifySeed`)
over the data model of `shared/schema.ts`.  The database is modelled as an
explicit record of tables; the drizzle queries of the source become list
operations; machine floats produced by `parseInt(...)/0xffffffff` become
exact rationals (for the quantities involved, 8 hex digits over a 32-bit
denominator, double rounding never crosses the boundaries 0 and 1 that the
statements mention, except at the exact value 1 which doubles represent
exactly); a JavaScript crash (indexing `undefined` and then reading a
property of it) becomes an error value carrying the database state at the
moment of the throw, since the source runs no transaction and leaves all
mutations made so far in place.
-/

namespace LeGrandJeu

/-- Challenge difficulty classes, from `challengeDifficultyEnum` in
`shared/schema.ts`. -/
inductive Difficulty
  | easy
  | medium
  | hard
  | team
deriving DecidableEq, Repr

/-- Assignment lifecycle states, from `challengeStatusEnum` in
`shared/schema.ts`. -/
inductive CStatus
  | not_started
  | in_progress
  | completed
  | validated
deriving DecidableEq, Repr

/-- A row of the `users` table (the fields the generator reads). -/
structure User where
  id : String
  isAdmin : Bool
deriving DecidableEq, Repr

/-- A row of the `challenges` table (the fields the generator reads). -/
structure Challenge where
  id : String
  difficulty : Difficulty
  needsTarget : Bool
  isActive : Bool
deriving DecidableEq, Repr

/-- A row of the `teams` table as inserted by `generateAssignments`. -/
structure TeamRec where
  name : String
  identificationMissionTitle : String
  identificationMissionDescription : String
  teamChallengeId : String
deriving DecidableEq, Repr

/-- A row of the `team_members` table; teams are identified by their
insertion index within one generation run. -/
structure TeamMemberRec where
  teamIdx : Nat
  userId : String
deriving DecidableEq, Repr

/-- A row of the `assignments` table as inserted by `createAssignment`
inside `generateAssignments`. -/
structure Assignment where
  userId : String
  challengeId : String
  targetUserId : Option String
  status : CStatus
deriving DecidableEq, Repr

/-- A row of the `assignment_seeds` table. -/
structure SeedRecord where
  seed : String
  seedHash : String
  participantCount : Nat
  generatedBy : String
  isActive : Bool
deriving DecidableEq, Repr

/-- A row of the `audit_log` table (the fields the generator writes). -/
structure AuditEntry where
  action : String
  adminId : String
  details : String
  seedHash : Option String
deriving DecidableEq, Repr

/-- The database state visible to the storage layer. -/
structure DB where
  users : List User
  challenges : List Challenge
  teams : List TeamRec
  teamMembers : List TeamMemberRec
  assignments : List Assignment
  seeds : List SeedRecord
  auditLog : List AuditEntry
deriving DecidableEq, Repr

/-- `getChallengesByDifficulty` of `storage.ts`: active challenges of one
difficulty class. -/
def getChallengesByDifficulty (db : DB) (d : Difficulty) : List Challenge :=
  db.challenges.filter (fun c => decide (c.difficulty = d) && c.isActive)

/-- The non-admin users, as selected at the start of `generateAssignments`
(`where(eq(users.isAdmin, false))`). -/
def nonAdmins (db : DB) : List User :=
  db.users.filter (fun u => !u.isAdmin)

/-- `verifySeed` of `storage.ts`: whether some stored seed record carries
exactly this hash.  The source selects rows with
`eq(assignmentSeeds.seedHash, seedHash)` and returns `!!seed`. -/
def verifySeed (db : DB) (candidateHash : String) : Bool :=
  db.seeds.any (fun s => s.seedHash == candidateHash)

/-!
The seeded pseudo-random stream of `generateAssignments`
(`storage.ts` lines 212-218):

    let seedIndex = 0;
    const seededRandom = () => {
      const value = parseInt(seed.substr(seedIndex % seed.length, 8), 16) / 0xffffffff;
      seedIndex += 8;
      return value;
    };
-/

/-- Numeric value of one hex digit, as `parseInt(_, 16)` assigns it
(48-57 are the digits, 97-102 lower-case a-f, 65-70 upper-case A-F). -/
def hexVal (c : Char) : Nat :=
  if 48 ≤ c.toNat ∧ c.toNat ≤ 57 then c.toNat - 48
  else if 97 ≤ c.toNat ∧ c.toNat ≤ 102 then c.toNat - 87
  else if 65 ≤ c.toNat ∧ c.toNat ≤ 70 then c.toNat - 55
  else 0

/-- Whether a character is a hex digit for `parseInt(_, 16)`. -/
def isHexDigit (c : Char) : Bool :=
  (48 ≤ c.toNat && c.toNat ≤ 57) || (97 ≤ c.toNat && c.toNat ≤ 102) ||
    (65 ≤ c.toNat && c.toNat ≤ 70)

/-- `parseInt(s, 16)` on the longest hex-digit prefix of `s`.  The seeds
the source feeds in are hex strings (`randomBytes(128).toString("hex")`),
on which this model agrees with JavaScript; only a string with no hex
prefix at all would differ (JavaScript then yields NaN). -/
def parseIntHex (s : List Char) : Nat :=
  (s.takeWhile isHexDigit).foldl (fun a c => 16 * a + hexVal c) 0

/-- The 8-character window `seed.substr(seedIndex % seed.length, 8)`. -/
def seedWindow (seed : String) (idx : Nat) : List Char :=
  (seed.data.drop (idx % seed.length)).take 8

/-- The numerator of the value drawn at stream position `idx`:
`parseInt(seed.substr(idx % seed.length, 8), 16)`.  Every drawn value is
this numerator over the fixed denominator `0xffffffff`; the algorithm
below computes on the numerator exactly (see `jsFloorIdx_eq_floor` and
`ltHalf_iff` for the correspondence with the floating-point reading). -/
def seedNat (seed : String) (idx : Nat) : Nat :=
  parseIntHex (seedWindow seed idx)

/-- The value drawn by `seededRandom` at stream position `idx`:
`parseInt(seed.substr(idx % seed.length, 8), 16) / 0xffffffff`, as an
exact rational. -/
def seedValue (seed : String) (idx : Nat) : ℚ :=
  (seedNat seed idx : ℚ) / 4294967295

/-- The mutable state of the stream: the seed string and `seedIndex`. -/
structure Rng where
  seed : String
  seedIndex : Nat
deriving DecidableEq, Repr

/-- One call of `seededRandom`: produce the numerator of the value at the
current index and advance `seedIndex` by 8. -/
def Rng.next (g : Rng) : Nat × Rng :=
  (seedNat g.seed g.seedIndex, ⟨g.seed, g.seedIndex + 8⟩)

/-- `Math.floor(value * n)` where `value = p / 0xffffffff`, computed
exactly on the numerator `p` by integer division. -/
def jsFloorIdx (p : Nat) (n : Nat) : Nat :=
  p * n / 4294967295

/-- The comparison `value < 0.5` (the comparator
`() => seededRandom() - 0.5` returning a negative number), computed
exactly on the numerator. -/
def ltHalf (p : Nat) : Bool :=
  2 * p < 4294967295

/-- The integer-division reading of `Math.floor(value * n)` agrees with
the exact floor of the rational `value * n`. -/
theorem jsFloorIdx_eq_floor (p n : Nat) :
    jsFloorIdx p n = ⌊((p : ℚ) / 4294967295) * n⌋₊ := by
  have : ((p : ℚ) / 4294967295) * n = ((p * n : ℕ) : ℚ) / ((4294967295 : ℕ) : ℚ) := by
    push_cast
    ring
  rw [jsFloorIdx, this, Nat.floor_div_nat, Nat.floor_natCast]

/-- The numerator comparison `ltHalf` agrees with the rational comparison
`value < 1 / 2`. -/
theorem ltHalf_iff (p : Nat) :
    ltHalf p = true ↔ ((p : ℚ) / 4294967295) < 1 / 2 := by
  rw [ltHalf, div_lt_div_iff₀ (by norm_num) (by norm_num)]
  constructor
  · intro h
    have : ((2 * p : ℕ) : ℚ) < ((4294967295 : ℕ) : ℚ) := by
      exact_mod_cast Nat.cast_lt.mpr (by simpa using h)
    push_cast at this ⊢
    linarith
  · intro h
    have : (2 * p : ℚ) < 4294967295 := by linarith
    have : ((2 * p : ℕ) : ℚ) < ((4294967295 : ℕ) : ℚ) := by push_cast; linarith
    simpa using Nat.cast_lt.mp this

/-- Each hex digit value is at most 15. -/
theorem hexVal_le (c : Char) : hexVal c ≤ 15 := by
  unfold hexVal
  split_ifs <;> omega

/-- Bound for the hex fold: starting from `a`, folding `n` digits stays
below `(a + 1) * 16 ^ n`. -/
theorem hexFold_lt (l : List Char) :
    ∀ a : Nat, l.foldl (fun a c => 16 * a + hexVal c) a < (a + 1) * 16 ^ l.length := by
  induction l with
  | nil => intro a; simp
  | cons c l ih =>
    intro a
    have h1 := ih (16 * a + hexVal c)
    have h2 : hexVal c ≤ 15 := hexVal_le c
    have h3 : (16 * a + hexVal c + 1) * 16 ^ l.length ≤ (a + 1) * 16 ^ (l.length + 1) := by
      have : 16 * a + hexVal c + 1 ≤ 16 * (a + 1) := by omega
      calc (16 * a + hexVal c + 1) * 16 ^ l.length
              ≤ 16 * (a + 1) * 16 ^ l.length := Nat.mul_le_mul_right _ this
          _ = (a + 1) * 16 ^ (l.length + 1) := by ring
    simp only [List.foldl_cons, List.length_cons]
    exact lt_of_lt_of_le h1 h3

/-- A window of at most 8 characters parses to at most `0xffffffff`. -/
theorem parseIntHex_le (s : List Char) (h : s.length ≤ 8) :
    parseIntHex s ≤ 4294967295 := by
  have hlen : (s.takeWhile isHexDigit).length ≤ 8 :=
    le_trans (List.Sublist.length_le (List.takeWhile_sublist _)) h
  have := hexFold_lt (s.takeWhile isHexDigit) 0
  have hpow : 16 ^ (s.takeWhile isHexDigit).length ≤ 16 ^ 8 :=
    Nat.pow_le_pow_right (by norm_num) hlen
  simp only [Nat.one_mul] at this
  unfold parseIntHex
  have h16 : (16 : Nat) ^ 8 = 4294967296 := by norm_num
  omega

/-!
The generation algorithm of `generateAssignments` (`storage.ts` 185-328).
A JavaScript runtime error (indexing past the end of an array and then
reading `.id` of `undefined`) is modelled as a `GenError`; the database
state accumulated so far is kept, since the source runs no transaction.
-/

/-- The ways a generation run can die at runtime in the source: an index
computed from a drawn value falls outside the list it is applied to. -/
inductive GenError
  | shuffleIndex
  | missionIndex
  | teamChallengeIndex
  | targetIndex
deriving DecidableEq, Repr

/-- The Fisher-Yates loop of lines 222-225, walking `i` from
`length - 1` down to `1` and swapping positions `i` and
`j = Math.floor(seededRandom() * (i + 1))`.  A drawn value of exactly 1
makes `j = i + 1`; the source would then corrupt the array with
`undefined` and crash shortly after, which we model as an error. -/
def fisherYatesAux : List User → Nat → Rng → Except GenError (List User × Rng)
  | arr, 0, g => .ok (arr, g)
  | arr, i + 1, g =>
    let (q, g') := g.next
    let j := jsFloorIdx q (i + 2)
    match arr.get? (i + 1), arr.get? j with
    | some xi, some xj => fisherYatesAux ((arr.set (i + 1) xj).set j xi) i g'
    | _, _ => .error .shuffleIndex

/-- The deterministic shuffle of the participant list. -/
def fisherYates (arr : List User) (g : Rng) : Except GenError (List User × Rng) :=
  fisherYatesAux arr (arr.length - 1) g

/-- The team-forming loop of lines 231-235: consecutive slices of size
`Math.min(3, remaining)`. -/
def chunk3 : List α → List (List α)
  | [] => []
  | [a] => [[a]]
  | [a, b] => [[a, b]]
  | a :: b :: c :: rest => [a, b, c] :: chunk3 rest

/-- The fixed pool of identification missions (lines 238-251). -/
def identificationMissions : List (String × String) :=
  [("Retrouvez-vous au marché de Saint-Martin",
    "Rendez-vous ensemble au marché de Saint-Martin-de-Ré entre 9h et 11h. Prenez une photo de groupe devant l\x27entrée principale."),
   ("Rassemblement au Phare des Baleines",
    "Retrouvez-vous tous au pied du Phare des Baleines. Prenez une photo de groupe avec le phare en arrière-plan."),
   ("Réunion à la Plage de la Conche",
    "Rendez-vous sur la plage de la Conche des Baleines. Prenez une photo de groupe sur le sable.")]

/-- The team-creation loop of lines 253-270: per group, draw a mission
index and a team-challenge index, insert the team, then its members.  On
an out-of-range index the teams and members inserted so far remain. -/
def mkTeams (teamChallenges : List Challenge) :
    List (List String) → Nat → Rng → List TeamRec × List TeamMemberRec × Rng × Option GenError
  | [], _, g => ([], [], g, none)
  | group :: rest, i, g =>
    let q1 := g.next
    match identificationMissions.get? (jsFloorIdx q1.1 identificationMissions.length) with
    | none => ([], [], q1.2, some .missionIndex)
    | some mission =>
      let q2 := q1.2.next
      match teamChallenges.get? (jsFloorIdx q2.1 teamChallenges.length) with
      | none => ([], [], q2.2, some .teamChallengeIndex)
      | some tc =>
        let team : TeamRec :=
          ⟨"Équipe #" ++ toString (i + 1), mission.1, mission.2, tc.id⟩
        let members := group.map (fun uid => TeamMemberRec.mk i uid)
        let r := mkTeams teamChallenges rest (i + 1) q2.2
        (team :: r.1, members ++ r.2.1, r.2.2.1, r.2.2.2)

/-- Insert one element into the accumulated list, consuming one stream
value per comparison, mirroring the comparator
`() => seededRandom() - 0.5`: a value below one half keeps the inserted
element in front, any other value moves past the current element. -/
def insertRand (x : α) : List α → Rng → List α × Rng
  | [], g => ([x], g)
  | y :: ys, g =>
    let q := g.next
    if ltHalf q.1 then (x :: y :: ys, q.2)
    else
      let r := insertRand x ys q.2
      (y :: r.1, r.2)

/-- Helper for `sortRand`: fold the remaining elements into the
accumulator. -/
def sortRandAux : List α → List α → Rng → List α × Rng
  | acc, [], g => (acc, g)
  | acc, y :: ys, g =>
    let i := insertRand y acc g
    sortRandAux i.1 ys i.2

/-- Model of `[...pool].sort(() => seededRandom() - 0.5)` (lines 275, 285
and 302).  The engine sort is a deterministic comparison sort whose
comparator here consumes one stream value per call; we fix insertion sort
as the concrete deterministic comparison sort.  Every property proved
below (the result is a permutation of the pool, and is a function of the
pool and the stream state alone) holds for the engine sort for the same
reasons. -/
def sortRand (l : List α) (g : Rng) : List α × Rng :=
  sortRandAux [] l g

/-- `createAssignment` as called by the generator: a fresh row with the
given target and status `not_started`. -/
def mkAssignment (uid cid : String) (tgt : Option String) : Assignment :=
  ⟨uid, cid, tgt, .not_started⟩

/-- Target resolution for one challenge that `needsTarget` (lines 288-291
and 305-308): filter out the assignee, then index by a drawn value.  A
drawn value of exactly 1 (or an empty candidate list) crashes the source;
modelled as an error. -/
def drawTarget (user : User) (allUsers : List User) (g : Rng) :
    Option String × Rng × Option GenError :=
  let possibleTargets := allUsers.filter (fun u => u.id != user.id)
  let q := g.next
  match possibleTargets.get? (jsFloorIdx q.1 possibleTargets.length) with
  | some t => (some t.id, q.2, none)
  | none => (none, q.2, some .targetIndex)

/-- The per-challenge loop over a drawn medium or hard slice (lines
286-299 and 303-316): resolve a target when the challenge needs one, then
create the assignment.  On a failed target draw the assignments created
earlier in the loop remain. -/
def mkTargeted (user : User) (allUsers : List User) :
    List Challenge → Rng → List Assignment × Rng × Option GenError
  | [], g => ([], g, none)
  | c :: rest, g =>
    if c.needsTarget then
      let d := drawTarget user allUsers g
      match d.2.2 with
      | some e => ([], d.2.1, some e)
      | none =>
        let r := mkTargeted user allUsers rest d.2.1
        (mkAssignment user.id c.id d.1 :: r.1, r.2.1, r.2.2)
    else
      let r := mkTargeted user allUsers rest g
      (mkAssignment user.id c.id none :: r.1, r.2.1, r.2.2)

/-- The easy slice of one participant (lines 275-282): shuffle the pool,
take the first 2, create each assignment without any target resolution —
the source never consults `needsTarget` for easy draws. -/
def easyBlock (easy : List Challenge) (user : User) (g : Rng) :
    List Assignment × Rng :=
  (((sortRand easy g).1.take 2).map (fun c => mkAssignment user.id c.id none),
    (sortRand easy g).2)

/-- The medium (lines 285-299) and hard (lines 302-316) slices of one
participant: shuffle the pool, take the first 2, resolve targets for
challenges that need one. -/
def medBlock (allUsers : List User) (pool : List Challenge) (user : User)
    (g : Rng) : List Assignment × Rng × Option GenError :=
  mkTargeted user allUsers ((sortRand pool g).1.take 2) (sortRand pool g).2

/-- The per-participant body of the individual-assignment loop (lines
273-317): the easy slice, then the medium and hard slices. -/
def perUser (allUsers : List User) (easy medium hard : List Challenge)
    (user : User) (g : Rng) : List Assignment × Rng × Option GenError :=
  let eb := easyBlock easy user g
  let mb := medBlock allUsers medium user eb.2
  match mb.2.2 with
  | some e => (eb.1 ++ mb.1, mb.2.1, some e)
  | none =>
    let hb := medBlock allUsers hard user mb.2.1
    (eb.1 ++ mb.1 ++ hb.1, hb.2.1, hb.2.2)

/-- The individual-assignment loop over all participants, in the original
(unshuffled) order the source iterates in. -/
def assignAll (allUsers : List User) (easy medium hard : List Challenge) :
    List User → Rng → List Assignment × Rng × Option GenError
  | [], g => ([], g, none)
  | u :: us, g =>
    let p := perUser allUsers easy medium hard u g
    match p.2.2 with
    | some e => (p.1, p.2.1, some e)
    | none =>
      let r := assignAll allUsers easy medium hard us p.2.1
      (p.1 ++ r.1, r.2.1, r.2.2)

/-- Outcome of one `generateAssignments` call: the database state it
leaves behind (also on a crash, since no transaction wraps the run) and
either the returned seed record or the runtime error. -/
structure GenOutcome where
  db : DB
  result : Except GenError SeedRecord

/-- Whether the run returned normally. -/
def genOk (o : GenOutcome) : Bool :=
  match o.result with
  | .ok _ => true
  | .error _ => false

/-- `generateAssignments` of `storage.ts` (lines 185-328).  The random
seed and its SHA-256 hash are drawn by the caller from `crypto` before
the deterministic part begins; they enter here as parameters (no claim
depends on the hash function itself).  The mutation order of the source
is kept: clear assignments, team members and teams, deactivate all seed
records, insert the new active one, and only then shuffle, build teams
and assign challenges; the audit entry is appended on the success path
only. -/
def generateAssignments (seed seedHash adminId : String) (db : DB) : GenOutcome :=
  let allUsers := nonAdmins db
  let easyChallenges := getChallengesByDifficulty db .easy
  let mediumChallenges := getChallengesByDifficulty db .medium
  let hardChallenges := getChallengesByDifficulty db .hard
  let teamChallenges := getChallengesByDifficulty db .team
  let seedRecord : SeedRecord := ⟨seed, seedHash, allUsers.length, adminId, true⟩
  let db1 : DB :=
    { db with
      assignments := []
      teamMembers := []
      teams := []
      seeds := db.seeds.map (fun s => { s with isActive := false }) ++ [seedRecord] }
  match fisherYates allUsers ⟨seed, 0⟩ with
  | .error e => ⟨db1, .error e⟩
  | .ok sr =>
    let teamAssignments := (chunk3 sr.1).map (fun grp => grp.map User.id)
    let tm := mkTeams teamChallenges teamAssignments 0 sr.2
    let db2 := { db1 with teams := tm.1, teamMembers := tm.2.1 }
    match tm.2.2.2 with
    | some e => ⟨db2, .error e⟩
    | none =>
      let aa :=
        assignAll allUsers easyChallenges mediumChallenges hardChallenges allUsers tm.2.2.1
      let db3 := { db2 with assignments := aa.1 }
      match aa.2.2 with
      | some e => ⟨db3, .error e⟩
      | none =>
        let audit : AuditEntry :=
          ⟨"generate_assignments", adminId,
            "Assignations générées pour " ++ toString allUsers.length ++ " participants",
            some seedHash⟩
        ⟨{ db3 with auditLog := db3.auditLog ++ [audit] }, .ok seedRecord⟩

/-- One generation request: the entropy drawn by `crypto` (seed and its
hash) and the acting admin. -/
structure GenInput where
  seed : String
  seedHash : String
  adminId : String
deriving DecidableEq, Repr

/-- A sequence of successive `generateAssignments` calls, each starting
from the database state the previous one left behind. -/
def runGenerations (db : DB) : List GenInput → DB
  | [] => db
  | inp :: rest => runGenerations (generateAssignments inp.seed inp.seedHash inp.adminId db).db rest

/-!
Shared sample data used by the concrete evaluations below.  The seed
`"00000000"` makes every drawn value 0, so every index draw picks
position 0 and every sort comparison keeps the later element behind.
-/

/-- Two non-admin participants and one active challenge per difficulty,
none needing a target. -/
def exDb2 : DB :=
  ⟨[⟨"u1", false⟩, ⟨"u2", false⟩],
   [⟨"e1", .easy, false, true⟩, ⟨"m1", .medium, false, true⟩,
    ⟨"h1", .hard, false, true⟩, ⟨"t1", .team, false, true⟩],
   [], [], [], [], []⟩

/-- Basic facts about the seeded stream window. -/
theorem seedWindow_length_le (seed : String) (idx : Nat) :
    (seedWindow seed idx).length ≤ 8 := by
  simp only [seedWindow, List.length_take]
  exact Nat.min_le_left _ _

/-- Every drawn numerator is at most the denominator `0xffffffff`. -/
theorem seedNat_le (seed : String) (idx : Nat) :
    seedNat seed idx ≤ 4294967295 :=
  parseIntHex_le _ (seedWindow_length_le seed idx)

/-- C3, counterexample.  The claim says every drawn value is strictly
below 1.  A seed of 256 `f` characters — a possible output of
`randomBytes(128).toString("hex")`, hence of the exact shape
`generateAssignments` uses — makes the very first window parse to
`0xffffffff`, so the drawn value is `0xffffffff / 0xffffffff = 1`,
not below 1 (JavaScript doubles represent this quotient exactly as 1). -/
theorem seededRandom_not_lt_one :
    (String.mk (List.replicate 256 'f')).length = 256 ∧
    ¬ seedValue (String.mk (List.replicate 256 'f')) 0 < 1 := by
  have h : seedNat (String.mk (List.replicate 256 'f')) 0 = 4294967295 := by
    set_option maxRecDepth 4000 in decide
  refine ⟨by set_option maxRecDepth 4000 in decide, ?_⟩
  unfold seedValue
  rw [h]
  norm_num

/-- C3, amended.  Every value drawn by the seeded stream lies in the
closed interval [0, 1] (the right endpoint is attained, see the
counterexample), and both the drawn value and the successor state of the
stream are functions of the seed string and the stream index alone, so
two derivations from the same seed yield the same sequence. -/
theorem seededRandom_bounds (g : Rng) :
    0 ≤ seedValue g.seed g.seedIndex ∧ seedValue g.seed g.seedIndex ≤ 1 ∧
    g.next.1 = seedNat g.seed g.seedIndex ∧
    g.next.2 = Rng.mk g.seed (g.seedIndex + 8) := by
  refine ⟨?_, ?_, rfl, rfl⟩
  · unfold seedValue
    positivity
  · unfold seedValue
    rw [div_le_one (by norm_num)]
    exact_mod_cast seedNat_le g.seed g.seedIndex

/-- C8.  `verifySeed` returns true exactly when some stored seed record —
active or not — carries a hash equal (as a string, hence byte-exact and
case-sensitive) to the candidate; it is a total boolean function, so a
missing hash yields `false` rather than an error. -/
theorem verifySeed_iff (db : DB) (h : String) :
    verifySeed db h = true ↔ ∃ r ∈ db.seeds, r.seedHash = h := by
  simp [verifySeed, List.any_eq_true, beq_iff_eq]

/-- C4.  The whole generation run — shuffle, partition, team draws,
individual draws, target resolutions — is a function of the seed string,
the admin id, the hash and the database state alone: two runs on equal
inputs produce equal team compositions, team memberships, assignments
(including target resolutions) and results.  The force of the statement
is that the embedding of the source consumes no input beyond these: after
the seed is drawn, every random choice comes from the seeded stream. -/
theorem generate_deterministic (s₁ s₂ h₁ h₂ a₁ a₂ : String) (db₁ db₂ : DB)
    (hs : s₁ = s₂) (hh : h₁ = h₂) (ha : a₁ = a₂) (hdb : db₁ = db₂) :
    (generateAssignments s₁ h₁ a₁ db₁).db.teams =
        (generateAssignments s₂ h₂ a₂ db₂).db.teams ∧
    (generateAssignments s₁ h₁ a₁ db₁).db.teamMembers =
        (generateAssignments s₂ h₂ a₂ db₂).db.teamMembers ∧
    (generateAssignments s₁ h₁ a₁ db₁).db.assignments =
        (generateAssignments s₂ h₂ a₂ db₂).db.assignments ∧
    (generateAssignments s₁ h₁ a₁ db₁).result =
        (generateAssignments s₂ h₂ a₂ db₂).result := by
  subst hs hh ha hdb
  exact ⟨rfl, rfl, rfl, rfl⟩

/-- Witness for C4 at a concrete input. -/
theorem generate_deterministic_witness :
    (generateAssignments "00000000" "H" "adm" exDb2).db.teams =
        (generateAssignments "00000000" "H" "adm" exDb2).db.teams ∧
    (generateAssignments "00000000" "H" "adm" exDb2).db.teamMembers =
        (generateAssignments "00000000" "H" "adm" exDb2).db.teamMembers ∧
    (generateAssignments "00000000" "H" "adm" exDb2).db.assignments =
        (generateAssignments "00000000" "H" "adm" exDb2).db.assignments ∧
    (generateAssignments "00000000" "H" "adm" exDb2).result =
        (generateAssignments "00000000" "H" "adm" exDb2).result :=
  generate_deterministic "00000000" "00000000" "H" "H" "adm" "adm" exDb2 exDb2
    rfl rfl rfl rfl

/-!
Seed-record bookkeeping (claim C7).  The source deactivates every stored
seed record and inserts the fresh active one before any fallible step, so
the seed-table shape below holds for failing runs as well.
-/

/-- The seed table after one call: every prior record deactivated, the new
active record appended. -/
theorem generate_db_seeds (s h a : String) (db : DB) :
    ((generateAssignments s h a db).db).seeds =
      db.seeds.map (fun r => { r with isActive := false }) ++
        [⟨s, h, (nonAdmins db).length, a, true⟩] := by
  simp only [generateAssignments]
  repeat first
  | rfl
  | split

/-- Splitting a run sequence. -/
theorem runGenerations_append (xs ys : List GenInput) (db : DB) :
    runGenerations db (xs ++ ys) = runGenerations (runGenerations db xs) ys := by
  induction xs generalizing db with
  | nil => rfl
  | cons x xs ih => simp [runGenerations, ih]

/-- Each call appends exactly one seed record. -/
theorem runGenerations_seeds_length (inputs : List GenInput) :
    ∀ db : DB, (runGenerations db inputs).seeds.length =
      db.seeds.length + inputs.length := by
  induction inputs with
  | nil => intro db; simp [runGenerations]
  | cons i is ih =>
    intro db
    rw [runGenerations, ih, generate_db_seeds]
    simp
    omega

/-- C7.  Starting from a state with no seed records, after any positive
number of successive `generateAssignments` calls the stored seed records
are exactly one per call, all retained; precisely the last — most
recently generated — one has `isActive = true` and the earlier ones are
all inactive. -/
theorem single_active_seed (db : DB) (inputs : List GenInput)
    (h0 : db.seeds = []) (hne : inputs ≠ []) :
    (runGenerations db inputs).seeds.length = inputs.length ∧
    (runGenerations db inputs).seeds.map SeedRecord.isActive =
      List.replicate (inputs.length - 1) false ++ [true] ∧
    ((runGenerations db inputs).seeds.getLast?).map
        (fun r => (r.seed, r.seedHash, r.generatedBy)) =
      inputs.getLast?.map (fun i => (i.seed, i.seedHash, i.adminId)) := by
  rcases List.eq_nil_or_concat inputs with rfl | ⟨pre, last, rfl⟩
  · exact absurd rfl hne
  · simp only [List.concat_eq_append] at hne ⊢
    rw [runGenerations_append]
    have hmidlen : (runGenerations db pre).seeds.length = pre.length := by
      rw [runGenerations_seeds_length, h0]
      simp
    have hrun : runGenerations (runGenerations db pre) [last] =
        (generateAssignments last.seed last.seedHash last.adminId
          (runGenerations db pre)).db := rfl
    rw [hrun, generate_db_seeds]
    refine ⟨?_, ?_, ?_⟩
    · simp [hmidlen]
    · rw [List.map_append, List.map_map]
      have hconst : (SeedRecord.isActive ∘ fun r : SeedRecord => { r with isActive := false })
          = fun _ => false := rfl
      rw [hconst, List.map_const', hmidlen]
      simp
    · simp

/-- One participant and no challenges at all: enough for the seed-table
bookkeeping, which precedes every fallible step. -/
def exDbSeedsOnly : DB :=
  ⟨[⟨"u1", false⟩], [], [], [], [], [], []⟩

/-- Two successive generation requests. -/
def exInputs : List GenInput :=
  [⟨"00000000", "h1", "a1"⟩, ⟨"11111111", "h2", "a2"⟩]

/-- Witness for C7 at a concrete two-call sequence. -/
theorem single_active_seed_witness :
    (runGenerations exDbSeedsOnly exInputs).seeds.length = exInputs.length ∧
    (runGenerations exDbSeedsOnly exInputs).seeds.map SeedRecord.isActive =
      List.replicate (exInputs.length - 1) false ++ [true] ∧
    ((runGenerations exDbSeedsOnly exInputs).seeds.getLast?).map
        (fun r => (r.seed, r.seedHash, r.generatedBy)) =
      exInputs.getLast?.map (fun i => (i.seed, i.seedHash, i.adminId)) :=
  single_active_seed exDbSeedsOnly exInputs rfl (by decide)

/-!
Claim C1: team sizes.  The source slices the shuffled list into
consecutive groups of `Math.min(3, remaining)`, so when the participant
count is congruent to 1 modulo 3 the final group has a single member —
although the comment over the loop (line 227) reads "Form teams (2-3
members each)" and the claim demands every team have 2 or 3 members.
-/

/-- Four non-admin participants and one active challenge per difficulty. -/
def exDb4 : DB :=
  ⟨[⟨"u1", false⟩, ⟨"u2", false⟩, ⟨"u3", false⟩, ⟨"u4", false⟩],
   [⟨"e1", .easy, false, true⟩, ⟨"m1", .medium, false, true⟩,
    ⟨"h1", .hard, false, true⟩, ⟨"t1", .team, false, true⟩],
   [], [], [], [], []⟩

/-- C1, evaluation at the failing input.  With 4 participants the run
completes, produces `ceil(4/3) = 2` teams, but the second team has
exactly one member — not 2 or 3 as the claim (and the source comment
"Form teams (2-3 members each)") require. -/
theorem team_of_one_member :
    (nonAdmins exDb4).length = 4 ∧
    genOk (generateAssignments "00000000" "H" "adm" exDb4) = true ∧
    (generateAssignments "00000000" "H" "adm" exDb4).db.teams.length = 2 ∧
    (generateAssignments "00000000" "H" "adm" exDb4).db.teamMembers.countP
        (fun tm => tm.teamIdx == 1) = 1 := by
  decide

/-!
Claim C6: empty challenge category.  The source never checks the pools:
it clears the assignment, team-member and team tables, deactivates the
old seed records and inserts the new active one before touching the
pools; with an empty team pool it then dies on
`teamChallenges[teamChallengeIndex].id` (a TypeError, not a
`ConfigurationError`), leaving those mutations in place.
-/

/-- Two non-admin participants, active easy/medium/hard challenges but no
active team challenge, and pre-existing assignment, team, membership and
active seed rows to observe the destructive mutations. -/
def exDbNoTeamPool : DB :=
  ⟨[⟨"u1", false⟩, ⟨"u2", false⟩],
   [⟨"e1", .easy, false, true⟩, ⟨"m1", .medium, false, true⟩,
    ⟨"h1", .hard, false, true⟩],
   [⟨"old team", "t", "d", "e1"⟩],
   [⟨0, "u1"⟩],
   [⟨"u1", "e1", none, .not_started⟩],
   [⟨"oldseed", "oldhash", 2, "adm", true⟩],
   []⟩

/-- C6, evaluation at the failing input.  With no active team challenge
the run fails (with an index fault, the model of the TypeError on
`teamChallenges[...].id` — no `ConfigurationError` exists anywhere in the
source), yet the mutations have already happened: the pre-existing
assignment, team and membership rows are gone, the old seed record is
deactivated and the new active seed record is stored. -/
theorem empty_category_mutates_then_fails :
    genOk (generateAssignments "00000000" "H" "adm" exDbNoTeamPool) = false ∧
    (generateAssignments "00000000" "H" "adm" exDbNoTeamPool).db.assignments = [] ∧
    (generateAssignments "00000000" "H" "adm" exDbNoTeamPool).db.teams = [] ∧
    (generateAssignments "00000000" "H" "adm" exDbNoTeamPool).db.teamMembers = [] ∧
    (generateAssignments "00000000" "H" "adm" exDbNoTeamPool).db.seeds.map
        (fun r => (r.seedHash, r.isActive)) = [("oldhash", false), ("H", true)] := by
  decide

/-!
Pointwise facts about every assignment a run creates, holding on failing
runs as well (the source keeps the rows already inserted when it
crashes).
-/

/-- A successful target draw lands in the assignee-excluding filter of
the participant list. -/
theorem drawTarget_some (user : User) (A : List User) (g : Rng) (t : String)
    (h : (drawTarget user A g).1 = some t) :
    t ∈ (A.filter (fun u => u.id != user.id)).map User.id := by
  simp only [drawTarget] at h
  split at h
  next x heq =>
    simp only [Option.some.injEq] at h
    exact h ▸ List.mem_map_of_mem _ (List.get?_mem heq)
  next => exact absurd h (by simp)

/-- A member of the assignee-excluding filter is a participant other than
the assignee. -/
theorem mem_filter_ne (A : List User) (user : User) (t : String)
    (h : t ∈ (A.filter (fun u => u.id != user.id)).map User.id) :
    t ≠ user.id ∧ t ∈ A.map User.id := by
  rcases List.mem_map.mp h with ⟨u, hu, rfl⟩
  rcases List.mem_filter.mp hu with ⟨hA, hne⟩
  exact ⟨by simpa using hne, List.mem_map_of_mem _ hA⟩

/-- When a target-resolving draw returns without error it did resolve a
target. -/
theorem drawTarget_ok_some (user : User) (A : List User) (g : Rng)
    (h : (drawTarget user A g).2.2 = none) :
    ∃ t, (drawTarget user A g).1 = some t := by
  simp only [drawTarget] at h ⊢
  split at h
  next x heq => exact ⟨x.id, by simp [heq]⟩
  next heq => exact absurd h (by simp)

/-- Every assignment the per-challenge loop creates belongs to the
assignee, starts `not_started`, and stems from one of the listed
challenges; when that challenge needs a target the assignment carries one
drawn from the other participants, otherwise it carries none. -/
theorem mkTargeted_mem (user : User) (A : List User) :
    ∀ (chs : List Challenge) (g : Rng) (x : Assignment),
      x ∈ (mkTargeted user A chs g).1 →
      x.userId = user.id ∧ x.status = .not_started ∧
      ∃ c ∈ chs, x.challengeId = c.id ∧
        (c.needsTarget = true → ∃ t, x.targetUserId = some t ∧
          t ∈ (A.filter (fun u => u.id != user.id)).map User.id) ∧
        (c.needsTarget = false → x.targetUserId = none) := by
  intro chs
  induction chs with
  | nil => intro g x hx; simp [mkTargeted] at hx
  | cons c rest ih =>
    intro g x hx
    simp only [mkTargeted] at hx
    by_cases hc : c.needsTarget
    · simp only [hc, if_true] at hx
      split at hx
      next => simp at hx
      next heq =>
        rcases List.mem_cons.mp hx with rfl | hrest
        · refine ⟨rfl, rfl, c, List.mem_cons_self c rest, rfl, ?_, ?_⟩
          · intro _
            obtain ⟨t, ht⟩ := drawTarget_ok_some user A g heq
            exact ⟨t, ht, drawTarget_some user A g t ht⟩
          · intro hfalse
            rw [hc] at hfalse
            cases hfalse
        · obtain ⟨h1, h2, c', hc', h3⟩ := ih _ x hrest
          exact ⟨h1, h2, c', List.mem_cons_of_mem c hc', h3⟩
    · simp only [hc, if_false] at hx
      rcases List.mem_cons.mp hx with rfl | hrest
      · refine ⟨rfl, rfl, c, List.mem_cons_self c rest, rfl, ?_, fun _ => rfl⟩
        intro htrue
        rw [htrue] at hc
        exact absurd rfl hc
      · obtain ⟨h1, h2, c', hc', h3⟩ := ih _ x hrest
        exact ⟨h1, h2, c', List.mem_cons_of_mem c hc', h3⟩

/-- `insertRand` permutes the inserted element into the list. -/
theorem insertRand_perm (x : α) :
    ∀ (l : List α) (g : Rng), (insertRand x l g).1.Perm (x :: l) := by
  intro l
  induction l with
  | nil => intro g; simp [insertRand]
  | cons y ys ih =>
    intro g
    simp only [insertRand]
    split
    · exact List.Perm.refl _
    · exact ((ih _).cons y).trans (List.Perm.swap x y ys)

/-- The accumulator-based sort returns a permutation of accumulator plus
input. -/
theorem sortRandAux_perm :
    ∀ (l acc : List α) (g : Rng), (sortRandAux acc l g).1.Perm (acc ++ l) := by
  intro l
  induction l with
  | nil => intro acc g; simp [sortRandAux]
  | cons y ys ih =>
    intro acc g
    simp only [sortRandAux]
    refine (ih _ _).trans ?_
    have h1 : List.Perm ((insertRand y acc g).1 ++ ys) ((y :: acc) ++ ys) :=
      (insertRand_perm y acc g).append_right ys
    exact h1.trans List.perm_middle.symm

/-- The random comparison sort returns a permutation of its input: no
element of the pool is lost or duplicated. -/
theorem sortRand_perm (l : List α) (g : Rng) : (sortRand l g).1.Perm l := by
  simpa using sortRandAux_perm l [] g

/-- Every assignment of a per-participant block belongs to that
participant, starts `not_started`, and either stems from the easy pool
and carries no target, or stems from the medium or hard pool with the
target discipline of `mkTargeted`. -/
theorem perUser_mem (A : List User) (e m h : List Challenge) (user : User)
    (g : Rng) (x : Assignment) (hx : x ∈ (perUser A e m h user g).1) :
    x.userId = user.id ∧ x.status = .not_started ∧
    ((x.targetUserId = none ∧ x.challengeId ∈ e.map Challenge.id) ∨
      (∃ c, (c ∈ m ∨ c ∈ h) ∧ x.challengeId = c.id ∧
        (c.needsTarget = true → ∃ t, x.targetUserId = some t ∧
          t ∈ (A.filter (fun u => u.id != user.id)).map User.id) ∧
        (c.needsTarget = false → x.targetUserId = none))) := by
  have easyCase : ∀ (g' : Rng), ∀ y ∈ (easyBlock e user g').1,
      y.userId = user.id ∧ y.status = CStatus.not_started ∧
        y.targetUserId = none ∧ y.challengeId ∈ e.map Challenge.id := by
    intro g' y hy
    simp only [easyBlock] at hy
    rcases List.mem_map.mp hy with ⟨c, hc, rfl⟩
    refine ⟨rfl, rfl, rfl, ?_⟩
    have hce : c ∈ e := (sortRand_perm e g').mem_iff.mp (List.take_subset 2 _ hc)
    exact List.mem_map_of_mem _ hce
  have medCase : ∀ (g' : Rng) (y : Assignment) (pool : List Challenge),
      y ∈ (medBlock A pool user g').1 →
      y.userId = user.id ∧ y.status = CStatus.not_started ∧
        ∃ c ∈ pool, y.challengeId = c.id ∧
          (c.needsTarget = true → ∃ t, y.targetUserId = some t ∧
            t ∈ (A.filter (fun u => u.id != user.id)).map User.id) ∧
          (c.needsTarget = false → y.targetUserId = none) := by
    intro g' y pool hy
    simp only [medBlock] at hy
    obtain ⟨h1, h2, c, hc, h3⟩ := mkTargeted_mem user A _ _ y hy
    exact ⟨h1, h2, c,
      (sortRand_perm pool g').mem_iff.mp (List.take_subset 2 _ hc), h3⟩
  simp only [perUser] at hx
  split at hx
  · rcases List.mem_append.mp hx with hE | hM
    · obtain ⟨h1, h2, h3, h4⟩ := easyCase _ x hE
      exact ⟨h1, h2, Or.inl ⟨h3, h4⟩⟩
    · obtain ⟨h1, h2, c, hc, h3⟩ := medCase _ x m hM
      exact ⟨h1, h2, Or.inr ⟨c, Or.inl hc, h3⟩⟩
  · rcases List.mem_append.mp hx with hEM | hH
    · rcases List.mem_append.mp hEM with hE | hM
      · obtain ⟨h1, h2, h3, h4⟩ := easyCase _ x hE
        exact ⟨h1, h2, Or.inl ⟨h3, h4⟩⟩
      · obtain ⟨h1, h2, c, hc, h3⟩ := medCase _ x m hM
        exact ⟨h1, h2, Or.inr ⟨c, Or.inl hc, h3⟩⟩
    · obtain ⟨h1, h2, c, hc, h3⟩ := medCase _ x h hH
      exact ⟨h1, h2, Or.inr ⟨c, Or.inr hc, h3⟩⟩

/-- Every assignment the participant loop creates comes from the block of
one of the listed participants. -/
theorem assignAll_mem (A : List User) (e m h : List Challenge) :
    ∀ (users : List User) (g : Rng) (x : Assignment),
      x ∈ (assignAll A e m h users g).1 →
      ∃ u ∈ users, ∃ g', x ∈ (perUser A e m h u g').1 := by
  intro users
  induction users with
  | nil => intro g x hx; simp [assignAll] at hx
  | cons u us ih =>
    intro g x hx
    simp only [assignAll] at hx
    split at hx
    · exact ⟨u, List.mem_cons_self u us, g, hx⟩
    · rcases List.mem_append.mp hx with hHead | hTail
      · exact ⟨u, List.mem_cons_self u us, g, hHead⟩
      · obtain ⟨u', hu', g', hx'⟩ := ih _ x hTail
        exact ⟨u', List.mem_cons_of_mem u hu', g', hx'⟩

/-- Every assignment row present after a `generateAssignments` call —
also after a failing one — was created by the individual-assignment loop
of that call (the old rows are cleared up front). -/
theorem generate_assignments_mem (s h a : String) (db : DB) (x : Assignment)
    (hx : x ∈ (generateAssignments s h a db).db.assignments) :
    ∃ g, x ∈ (assignAll (nonAdmins db) (getChallengesByDifficulty db .easy)
      (getChallengesByDifficulty db .medium) (getChallengesByDifficulty db .hard)
      (nonAdmins db) g).1 := by
  simp only [generateAssignments] at hx
  split at hx
  · simp at hx
  · split at hx
    · simp at hx
    · split at hx
      · exact ⟨_, hx⟩
      · exact ⟨_, hx⟩

/-- C10.  Every individual assignment created by `generateAssignments`
starts in lifecycle status `not_started`: all three `createAssignment`
call sites pass `status: 'not_started'`. -/
theorem assignment_starts_not_started (s h a : String) (db : DB) (x : Assignment)
    (hx : x ∈ (generateAssignments s h a db).db.assignments) :
    x.status = .not_started := by
  obtain ⟨g, hg⟩ := generate_assignments_mem s h a db x hx
  obtain ⟨u, _, g', hx'⟩ := assignAll_mem _ _ _ _ _ g x hg
  exact (perUser_mem _ _ _ _ _ _ x hx').2.1

/-- Witness for C10 at a concrete run. -/
theorem assignment_starts_not_started_witness :
    (Assignment.mk "u1" "e1" none .not_started) ∈
      (generateAssignments "00000000" "H" "adm" exDb2).db.assignments ∧
    (Assignment.mk "u1" "e1" none .not_started).status = .not_started :=
  ⟨by decide,
    assignment_starts_not_started "00000000" "H" "adm" exDb2
      (Assignment.mk "u1" "e1" none .not_started) (by decide)⟩

/-- C9.  An assignment created by `generateAssignments` that carries a
target never targets its own assignee: targets are drawn from the
participant list filtered by `u.id !== user.id`. -/
theorem target_never_self (s h a : String) (db : DB) (x : Assignment) (t : String)
    (hx : x ∈ (generateAssignments s h a db).db.assignments)
    (ht : x.targetUserId = some t) :
    t ≠ x.userId := by
  obtain ⟨g, hg⟩ := generate_assignments_mem s h a db x hx
  obtain ⟨u, _, g', hx'⟩ := assignAll_mem _ _ _ _ _ g x hg
  obtain ⟨h1, _, h3⟩ := perUser_mem _ _ _ _ _ _ x hx'
  rw [h1]
  rcases h3 with ⟨hnone, _⟩ | ⟨c, _, _, htrue, hfalse⟩
  · rw [hnone] at ht
    cases ht
  · cases hc : c.needsTarget with
    | true =>
      obtain ⟨t', ht', hmem⟩ := htrue hc
      rw [ht'] at ht
      cases ht
      exact (mem_filter_ne _ _ _ hmem).1
    | false =>
      rw [hfalse hc] at ht
      cases ht

/-- Two non-admin participants with a target-needing medium challenge. -/
def exDbTarget : DB :=
  ⟨[⟨"u1", false⟩, ⟨"u2", false⟩],
   [⟨"e1", .easy, false, true⟩, ⟨"m1", .medium, true, true⟩,
    ⟨"h1", .hard, false, true⟩, ⟨"t1", .team, false, true⟩],
   [], [], [], [], []⟩

/-- Witness for C9 at a concrete run containing a resolved target. -/
theorem target_never_self_witness :
    (Assignment.mk "u1" "m1" (some "u2") .not_started) ∈
      (generateAssignments "00000000" "H" "adm" exDbTarget).db.assignments ∧
    ("u2" : String) ≠ "u1" :=
  ⟨by decide,
    target_never_self "00000000" "H" "adm" exDbTarget
      (Assignment.mk "u1" "m1" (some "u2") .not_started) "u2" (by decide) rfl⟩

/-!
Structure of successful runs: each per-participant block consists of the
easy slice followed by the medium and hard slices, and in a successful
block the medium and hard slices realise exactly the two drawn challenges
each.
-/

/-- What the per-challenge loop guarantees, challenge by challenge, when
it completes: ownership, fresh status, matching challenge id and the
target discipline. -/
def targetRel (user : User) (A : List User) (c : Challenge) (x : Assignment) : Prop :=
  x.userId = user.id ∧ x.challengeId = c.id ∧ x.status = .not_started ∧
  (c.needsTarget = true → ∃ t, x.targetUserId = some t ∧
    t ∈ (A.filter (fun u => u.id != user.id)).map User.id) ∧
  (c.needsTarget = false → x.targetUserId = none)

/-- A completed per-challenge loop creates exactly one assignment per
listed challenge, in order. -/
theorem mkTargeted_ok_forall₂ (user : User) (A : List User) :
    ∀ (chs : List Challenge) (g : Rng),
      (mkTargeted user A chs g).2.2 = none →
      List.Forall₂ (targetRel user A) chs (mkTargeted user A chs g).1 := by
  intro chs
  induction chs with
  | nil => intro g _; exact List.Forall₂.nil
  | cons c rest ih =>
    intro g hok
    simp only [mkTargeted] at hok ⊢
    cases hc : c.needsTarget with
    | true =>
      simp only [hc, if_true] at hok ⊢
      cases hd : (drawTarget user A g).2.2 with
      | some e => simp [hd] at hok
      | none =>
        simp only [hd] at hok ⊢
        refine List.Forall₂.cons ?_ (ih _ hok)
        refine ⟨rfl, rfl, rfl, ?_, ?_⟩
        · intro _
          obtain ⟨t, ht⟩ := drawTarget_ok_some user A g hd
          exact ⟨t, ht, drawTarget_some user A g t ht⟩
        · intro hfalse
          rw [hc] at hfalse
          cases hfalse
    | false =>
      simp only [hc, if_false] at hok ⊢
      refine List.Forall₂.cons ?_ (ih _ hok)
      refine ⟨rfl, rfl, rfl, ?_, fun _ => rfl⟩
      intro htrue
      rw [hc] at htrue
      cases htrue

/-- Challenge ids of a completed per-challenge loop, in order. -/
theorem forall₂_map_challengeIds {user : User} {A : List User} :
    ∀ {chs : List Challenge} {out : List Assignment},
      List.Forall₂ (targetRel user A) chs out →
      out.map Assignment.challengeId = chs.map Challenge.id := by
  intro chs out hf
  induction hf with
  | nil => rfl
  | cons h _ ih => simp [ih, h.2.1]

/-- Challenge ids of the easy slice, in order. -/
theorem easyBlock_ids (e : List Challenge) (user : User) (g : Rng) :
    (easyBlock e user g).1.map Assignment.challengeId =
      ((sortRand e g).1.take 2).map Challenge.id := by
  simp [easyBlock, List.map_map]
  rfl

/-- Challenge ids of a completed medium or hard slice, in order. -/
theorem medBlock_ok_ids (A : List User) (pool : List Challenge) (user : User)
    (g : Rng) (hok : (medBlock A pool user g).2.2 = none) :
    (medBlock A pool user g).1.map Assignment.challengeId =
      ((sortRand pool g).1.take 2).map Challenge.id :=
  forall₂_map_challengeIds (mkTargeted_ok_forall₂ user A _ _ hok)

/-- Taking 2 from a permutation of a pool with at least 2 elements gives
exactly 2 ids, without duplicates when the pool ids carry none. -/
theorem take_two_ids (pool sorted : List Challenge)
    (hperm : List.Perm sorted pool) :
    (2 ≤ pool.length → ((sorted.take 2).map Challenge.id).length = 2) ∧
    ((pool.map Challenge.id).Nodup → ((sorted.take 2).map Challenge.id).Nodup) := by
  constructor
  · intro h2
    have hlen : sorted.length = pool.length := hperm.length_eq
    simp [List.length_take, hlen]
    omega
  · intro hnd
    have h1 : (sorted.map Challenge.id).Nodup :=
      (hperm.map Challenge.id).nodup_iff.mpr hnd
    rw [List.map_take]
    exact h1.sublist (List.take_sublist _ _)

/-- The assignment rows of one category for one participant. -/
def catFilter (asgns : List Assignment) (uid : String) (pool : List Challenge) :
    List Assignment :=
  asgns.filter (fun x => decide (x.userId = uid ∧ x.challengeId ∈ pool.map Challenge.id))

/-- `catFilter` distributes over concatenation. -/
theorem catFilter_append (xs ys : List Assignment) (uid : String)
    (pool : List Challenge) :
    catFilter (xs ++ ys) uid pool = catFilter xs uid pool ++ catFilter ys uid pool := by
  unfold catFilter
  exact List.filter_append _ _

/-- `catFilter` keeps a list entirely made of this participant's rows for
this pool. -/
theorem catFilter_eq_self (xs : List Assignment) (uid : String)
    (pool : List Challenge) (h1 : ∀ x ∈ xs, x.userId = uid)
    (h2 : ∀ x ∈ xs, x.challengeId ∈ pool.map Challenge.id) :
    catFilter xs uid pool = xs := by
  unfold catFilter
  rw [List.filter_eq_self]
  intro x hx
  rw [decide_eq_true_eq]
  exact ⟨h1 x hx, h2 x hx⟩

/-- `catFilter` drops a list holding no row of this participant. -/
theorem catFilter_eq_nil_user (xs : List Assignment) (uid : String)
    (pool : List Challenge) (h1 : ∀ x ∈ xs, x.userId ≠ uid) :
    catFilter xs uid pool = [] := by
  unfold catFilter
  rw [List.filter_eq_nil_iff]
  intro x hx
  rw [decide_eq_true_eq]
  rintro ⟨hu, _⟩
  exact absurd hu (h1 x hx)

/-- `catFilter` drops a list holding no row of this pool. -/
theorem catFilter_eq_nil_pool (xs : List Assignment) (uid : String)
    (pool : List Challenge)
    (h2 : ∀ x ∈ xs, x.challengeId ∉ pool.map Challenge.id) :
    catFilter xs uid pool = [] := by
  unfold catFilter
  rw [List.filter_eq_nil_iff]
  intro x hx
  rw [decide_eq_true_eq]
  rintro ⟨_, hm⟩
  exact absurd hm (h2 x hx)

/-!
Pool facts: the four pools are filters of the challenge table by
difficulty, so under unique challenge ids (the table's primary key) their
id sets are pairwise disjoint.
-/

/-- Pools are drawn from the challenge table. -/
theorem pool_subset (db : DB) (d : Difficulty) :
    ∀ c ∈ getChallengesByDifficulty db d, c ∈ db.challenges := by
  intro c hc
  exact List.mem_of_mem_filter hc

/-- Every pool member carries the pool's difficulty. -/
theorem pool_difficulty (db : DB) (d : Difficulty) :
    ∀ c ∈ getChallengesByDifficulty db d, c.difficulty = d := by
  intro c hc
  have h := (List.mem_filter.mp hc).2
  rw [Bool.and_eq_true, decide_eq_true_eq] at h
  exact h.1

/-- Members of the challenge table with equal ids are equal, under the
primary-key hypothesis. -/
theorem challenge_id_inj (db : DB)
    (hids : (db.challenges.map Challenge.id).Nodup) :
    ∀ c₁ ∈ db.challenges, ∀ c₂ ∈ db.challenges, c₁.id = c₂.id → c₁ = c₂ := by
  intro c₁ h₁ c₂ h₂ heq
  exact List.inj_on_of_nodup_map hids h₁ h₂ heq

/-- Ids of pools of different difficulty never meet. -/
theorem pool_ids_disjoint (db : DB)
    (hids : (db.challenges.map Challenge.id).Nodup)
    (d₁ d₂ : Difficulty) (hne : d₁ ≠ d₂) :
    ∀ x ∈ (getChallengesByDifficulty db d₁).map Challenge.id,
      x ∉ (getChallengesByDifficulty db d₂).map Challenge.id := by
  intro x h1 h2
  rcases List.mem_map.mp h1 with ⟨c₁, hc₁, rfl⟩
  rcases List.mem_map.mp h2 with ⟨c₂, hc₂, heq⟩
  have e12 : c₂ = c₁ :=
    challenge_id_inj db hids c₂ (pool_subset db d₂ c₂ hc₂)
      c₁ (pool_subset db d₁ c₁ hc₁) heq
  apply hne
  rw [← pool_difficulty db d₁ c₁ hc₁, ← pool_difficulty db d₂ c₂ hc₂, e12]

/-- A pool's id list is duplicate-free under the primary-key
hypothesis. -/
theorem pool_ids_nodup (db : DB)
    (hids : (db.challenges.map Challenge.id).Nodup) (d : Difficulty) :
    ((getChallengesByDifficulty db d).map Challenge.id).Nodup :=
  hids.sublist ((List.filter_sublist _).map _)

/-- Every row of the easy slice lies in the easy pool. -/
theorem easyBlock_ids_sub (e : List Challenge) (user : User) (g : Rng) :
    ∀ x ∈ (easyBlock e user g).1, x.challengeId ∈ e.map Challenge.id := by
  intro x hx
  simp only [easyBlock] at hx
  rcases List.mem_map.mp hx with ⟨c, hc, rfl⟩
  exact List.mem_map_of_mem _
    ((sortRand_perm e g).mem_iff.mp (List.take_subset 2 _ hc))

/-- Every row of the easy slice belongs to the participant. -/
theorem easyBlock_user (e : List Challenge) (user : User) (g : Rng) :
    ∀ x ∈ (easyBlock e user g).1, x.userId = user.id := by
  intro x hx
  simp only [easyBlock] at hx
  rcases List.mem_map.mp hx with ⟨c, _, rfl⟩
  rfl

/-- Every row of a medium or hard slice lies in its pool. -/
theorem medBlock_ids_sub (A : List User) (pool : List Challenge)
    (user : User) (g : Rng) :
    ∀ x ∈ (medBlock A pool user g).1, x.challengeId ∈ pool.map Challenge.id := by
  intro x hx
  simp only [medBlock] at hx
  obtain ⟨_, _, c, hc, hcid, _⟩ := mkTargeted_mem user A _ _ x hx
  exact hcid ▸ List.mem_map_of_mem _
    ((sortRand_perm pool g).mem_iff.mp (List.take_subset 2 _ hc))

/-- Every row of a medium or hard slice belongs to the participant. -/
theorem medBlock_user (A : List User) (pool : List Challenge)
    (user : User) (g : Rng) :
    ∀ x ∈ (medBlock A pool user g).1, x.userId = user.id := by
  intro x hx
  simp only [medBlock] at hx
  exact (mkTargeted_mem user A _ _ x hx).1

/-- A successful per-participant block splits into its three slices, the
medium and hard ones completed. -/
theorem perUser_ok_parts (A : List User) (e m h : List Challenge)
    (user : User) (g : Rng) (hok : (perUser A e m h user g).2.2 = none) :
    (medBlock A m user (easyBlock e user g).2).2.2 = none ∧
    (medBlock A h user (medBlock A m user (easyBlock e user g).2).2.1).2.2 = none ∧
    (perUser A e m h user g).1 =
      (easyBlock e user g).1 ++ (medBlock A m user (easyBlock e user g).2).1 ++
        (medBlock A h user (medBlock A m user (easyBlock e user g).2).2.1).1 := by
  simp only [perUser] at hok ⊢
  cases hmb : (medBlock A m user (easyBlock e user g).2).2.2 with
  | some err => simp [hmb] at hok
  | none =>
    simp only [hmb] at hok ⊢
    exact ⟨trivial, hok, trivial⟩

/-- In a completed participant loop, one participant's rows of any one
pool are exactly the rows of that participant's own completed block:
other participants' blocks contribute rows of other user ids. -/
theorem assignAll_ok_parts (A : List User) (e m h pool : List Challenge) :
    ∀ (users : List User) (g : Rng),
      (assignAll A e m h users g).2.2 = none →
      (users.map User.id).Nodup →
      ∀ u ∈ users,
        ∃ g', (perUser A e m h u g').2.2 = none ∧
          catFilter (assignAll A e m h users g).1 u.id pool =
            catFilter (perUser A e m h u g').1 u.id pool := by
  intro users
  induction users with
  | nil => intro g _ _ u hu; simp at hu
  | cons u0 us ih =>
    intro g hok hnd u hu
    simp only [List.map_cons, List.nodup_cons] at hnd
    simp only [assignAll] at hok ⊢
    cases hp : (perUser A e m h u0 g).2.2 with
    | some err => simp [hp] at hok
    | none =>
      simp only [hp] at hok ⊢
      rcases List.mem_cons.mp hu with rfl | hus
      · refine ⟨g, hp, ?_⟩
        rw [catFilter_append]
        have hnil : catFilter
            (assignAll A e m h us (perUser A e m h u g).2.1).1 u.id pool = [] := by
          apply catFilter_eq_nil_user
          intro x hx
          obtain ⟨u', hu', g'', hx'⟩ := assignAll_mem A e m h us _ x hx
          rw [(perUser_mem A e m h u' g'' x hx').1]
          intro heq
          exact hnd.1 (heq ▸ List.mem_map_of_mem _ hu')
        rw [hnil, List.append_nil]
      · obtain ⟨g', hsucc, heq⟩ := ih _ hok hnd.2 u hus
        refine ⟨g', hsucc, ?_⟩
        rw [catFilter_append]
        have hnil : catFilter (perUser A e m h u0 g).1 u.id pool = [] := by
          apply catFilter_eq_nil_user
          intro x hx
          rw [(perUser_mem A e m h u0 g x hx).1]
          intro heq0
          exact hnd.1 (heq0 ▸ List.mem_map_of_mem _ hus)
        rw [hnil, List.nil_append]
        exact heq

/-- A successful `generateAssignments` call stores exactly the rows of a
completed participant loop over the non-admin users and the four filtered
pools. -/
theorem generate_ok_parts (s h a : String) (db : DB)
    (hok : genOk (generateAssignments s h a db) = true) :
    ∃ g, (assignAll (nonAdmins db) (getChallengesByDifficulty db .easy)
        (getChallengesByDifficulty db .medium) (getChallengesByDifficulty db .hard)
        (nonAdmins db) g).2.2 = none ∧
      (generateAssignments s h a db).db.assignments =
        (assignAll (nonAdmins db) (getChallengesByDifficulty db .easy)
          (getChallengesByDifficulty db .medium) (getChallengesByDifficulty db .hard)
          (nonAdmins db) g).1 := by
  simp only [genOk, generateAssignments] at hok ⊢
  cases hf : fisherYates (nonAdmins db) (Rng.mk s 0) with
  | error e => simp [hf] at hok
  | ok sr =>
    simp only [hf] at hok ⊢
    cases htm : (mkTeams (getChallengesByDifficulty db .team)
        ((chunk3 sr.1).map (fun grp => grp.map User.id)) 0 sr.2).2.2.2 with
    | some e => simp [htm] at hok
    | none =>
      simp only [htm] at hok ⊢
      cases haa : (assignAll (nonAdmins db) (getChallengesByDifficulty db .easy)
          (getChallengesByDifficulty db .medium) (getChallengesByDifficulty db .hard)
          (nonAdmins db) (mkTeams (getChallengesByDifficulty db .team)
            ((chunk3 sr.1).map (fun grp => grp.map User.id)) 0 sr.2).2.2.1).2.2 with
      | some e => simp [haa] at hok
      | none =>
        refine ⟨_, haa, ?_⟩
        simp only [haa]

/-- Size of the easy slice: 2 as soon as the easy pool has 2
challenges. -/
theorem easyBlock_len (e : List Challenge) (user : User) (g : Rng)
    (h2 : 2 ≤ e.length) : (easyBlock e user g).1.length = 2 := by
  simp only [easyBlock, List.length_map, List.length_take]
  have := (sortRand_perm e g).length_eq
  omega

/-- The easy slice never repeats a challenge id. -/
theorem easyBlock_nodup (e : List Challenge) (user : User) (g : Rng)
    (hnd : (e.map Challenge.id).Nodup) :
    ((easyBlock e user g).1.map Assignment.challengeId).Nodup := by
  rw [easyBlock_ids]
  exact (take_two_ids e _ (sortRand_perm e g)).2 hnd

/-- Size of a completed medium or hard slice: 2 as soon as its pool has 2
challenges. -/
theorem medBlock_len (A : List User) (pool : List Challenge) (user : User)
    (g : Rng) (hok : (medBlock A pool user g).2.2 = none)
    (h2 : 2 ≤ pool.length) : (medBlock A pool user g).1.length = 2 := by
  have h1 : (medBlock A pool user g).1.length =
      (((sortRand pool g).1.take 2).map Challenge.id).length := by
    rw [← medBlock_ok_ids A pool user g hok, List.length_map]
  rw [h1, List.length_map, List.length_take]
  have := (sortRand_perm pool g).length_eq
  omega

/-- A completed medium or hard slice never repeats a challenge id. -/
theorem medBlock_nodup (A : List User) (pool : List Challenge) (user : User)
    (g : Rng) (hok : (medBlock A pool user g).2.2 = none)
    (hnd : (pool.map Challenge.id).Nodup) :
    ((medBlock A pool user g).1.map Assignment.challengeId).Nodup := by
  rw [medBlock_ok_ids A pool user g hok]
  exact (take_two_ids pool _ (sortRand_perm pool g)).2 hnd

/-- In a successful block, the participant's easy-pool rows are exactly
the easy slice. -/
theorem perUser_ok_cat_easy (A : List User) (e m h : List Challenge)
    (user : User) (g : Rng) (hok : (perUser A e m h user g).2.2 = none)
    (hme : ∀ x ∈ m.map Challenge.id, x ∉ e.map Challenge.id)
    (hhe : ∀ x ∈ h.map Challenge.id, x ∉ e.map Challenge.id) :
    catFilter (perUser A e m h user g).1 user.id e = (easyBlock e user g).1 := by
  obtain ⟨hmok, hhok, hsplit⟩ := perUser_ok_parts A e m h user g hok
  rw [hsplit, catFilter_append, catFilter_append]
  rw [catFilter_eq_self _ _ _ (easyBlock_user e user g) (easyBlock_ids_sub e user g)]
  rw [catFilter_eq_nil_pool _ _ _
    (fun x hx => hme x.challengeId (medBlock_ids_sub A m user _ x hx))]
  rw [catFilter_eq_nil_pool _ _ _
    (fun x hx => hhe x.challengeId (medBlock_ids_sub A h user _ x hx))]
  simp

/-- In a successful block, the participant's medium-pool rows are exactly
the medium slice. -/
theorem perUser_ok_cat_med (A : List User) (e m h : List Challenge)
    (user : User) (g : Rng) (hok : (perUser A e m h user g).2.2 = none)
    (hem : ∀ x ∈ e.map Challenge.id, x ∉ m.map Challenge.id)
    (hhm : ∀ x ∈ h.map Challenge.id, x ∉ m.map Challenge.id) :
    catFilter (perUser A e m h user g).1 user.id m =
      (medBlock A m user (easyBlock e user g).2).1 := by
  obtain ⟨hmok, hhok, hsplit⟩ := perUser_ok_parts A e m h user g hok
  rw [hsplit, catFilter_append, catFilter_append]
  rw [catFilter_eq_nil_pool _ _ _
    (fun x hx => hem x.challengeId (easyBlock_ids_sub e user g x hx))]
  rw [catFilter_eq_self _ _ _ (medBlock_user A m user _)
    (medBlock_ids_sub A m user _)]
  rw [catFilter_eq_nil_pool _ _ _
    (fun x hx => hhm x.challengeId (medBlock_ids_sub A h user _ x hx))]
  simp

/-- In a successful block, the participant's hard-pool rows are exactly
the hard slice. -/
theorem perUser_ok_cat_hard (A : List User) (e m h : List Challenge)
    (user : User) (g : Rng) (hok : (perUser A e m h user g).2.2 = none)
    (heh : ∀ x ∈ e.map Challenge.id, x ∉ h.map Challenge.id)
    (hmh : ∀ x ∈ m.map Challenge.id, x ∉ h.map Challenge.id) :
    catFilter (perUser A e m h user g).1 user.id h =
      (medBlock A h user (medBlock A m user (easyBlock e user g).2).2.1).1 := by
  obtain ⟨hmok, hhok, hsplit⟩ := perUser_ok_parts A e m h user g hok
  rw [hsplit, catFilter_append, catFilter_append]
  rw [catFilter_eq_nil_pool _ _ _
    (fun x hx => heh x.challengeId (easyBlock_ids_sub e user g x hx))]
  rw [catFilter_eq_nil_pool _ _ _
    (fun x hx => hmh x.challengeId (medBlock_ids_sub A m user _ x hx))]
  rw [catFilter_eq_self _ _ _ (medBlock_user A h user _)
    (medBlock_ids_sub A h user _)]
  simp

/-- C5, amended.  In a successful run, with at least 2 active challenges
in each of the easy, medium and hard pools (not merely 1 — with a
singleton pool `slice(0, 2)` yields a single element, see the
counterexample), and unique challenge and participant ids (the table
primary keys), every non-admin participant receives exactly 2 easy, 2
medium and 2 hard assignments, with no duplicated challenge id within a
category. -/
theorem quota_per_participant (s h a : String) (db : DB) (u : User)
    (hids : (db.challenges.map Challenge.id).Nodup)
    (huids : ((nonAdmins db).map User.id).Nodup)
    (hE : 2 ≤ (getChallengesByDifficulty db .easy).length)
    (hM : 2 ≤ (getChallengesByDifficulty db .medium).length)
    (hH : 2 ≤ (getChallengesByDifficulty db .hard).length)
    (hok : genOk (generateAssignments s h a db) = true)
    (hu : u ∈ nonAdmins db) :
    ((catFilter (generateAssignments s h a db).db.assignments u.id
        (getChallengesByDifficulty db .easy)).length = 2 ∧
      ((catFilter (generateAssignments s h a db).db.assignments u.id
        (getChallengesByDifficulty db .easy)).map Assignment.challengeId).Nodup) ∧
    ((catFilter (generateAssignments s h a db).db.assignments u.id
        (getChallengesByDifficulty db .medium)).length = 2 ∧
      ((catFilter (generateAssignments s h a db).db.assignments u.id
        (getChallengesByDifficulty db .medium)).map Assignment.challengeId).Nodup) ∧
    ((catFilter (generateAssignments s h a db).db.assignments u.id
        (getChallengesByDifficulty db .hard)).length = 2 ∧
      ((catFilter (generateAssignments s h a db).db.assignments u.id
        (getChallengesByDifficulty db .hard)).map Assignment.challengeId).Nodup) := by
  obtain ⟨g, haa, hassign⟩ := generate_ok_parts s h a db hok
  rw [hassign]
  refine ⟨?_, ?_, ?_⟩
  · obtain ⟨g', hsucc, hcat⟩ := assignAll_ok_parts (nonAdmins db)
      (getChallengesByDifficulty db .easy) (getChallengesByDifficulty db .medium)
      (getChallengesByDifficulty db .hard) (getChallengesByDifficulty db .easy)
      (nonAdmins db) g haa huids u hu
    rw [hcat, perUser_ok_cat_easy _ _ _ _ _ _ hsucc
      (pool_ids_disjoint db hids .medium .easy (by decide))
      (pool_ids_disjoint db hids .hard .easy (by decide))]
    exact ⟨easyBlock_len _ _ _ hE, easyBlock_nodup _ _ _ (pool_ids_nodup db hids .easy)⟩
  · obtain ⟨g', hsucc, hcat⟩ := assignAll_ok_parts (nonAdmins db)
      (getChallengesByDifficulty db .easy) (getChallengesByDifficulty db .medium)
      (getChallengesByDifficulty db .hard) (getChallengesByDifficulty db .medium)
      (nonAdmins db) g haa huids u hu
    obtain ⟨hmok, hhok, _⟩ := perUser_ok_parts _ _ _ _ _ _ hsucc
    rw [hcat, perUser_ok_cat_med _ _ _ _ _ _ hsucc
      (pool_ids_disjoint db hids .easy .medium (by decide))
      (pool_ids_disjoint db hids .hard .medium (by decide))]
    exact ⟨medBlock_len _ _ _ _ hmok hM,
      medBlock_nodup _ _ _ _ hmok (pool_ids_nodup db hids .medium)⟩
  · obtain ⟨g', hsucc, hcat⟩ := assignAll_ok_parts (nonAdmins db)
      (getChallengesByDifficulty db .easy) (getChallengesByDifficulty db .medium)
      (getChallengesByDifficulty db .hard) (getChallengesByDifficulty db .hard)
      (nonAdmins db) g haa huids u hu
    obtain ⟨hmok, hhok, _⟩ := perUser_ok_parts _ _ _ _ _ _ hsucc
    rw [hcat, perUser_ok_cat_hard _ _ _ _ _ _ hsucc
      (pool_ids_disjoint db hids .easy .hard (by decide))
      (pool_ids_disjoint db hids .medium .hard (by decide))]
    exact ⟨medBlock_len _ _ _ _ hhok hH,
      medBlock_nodup _ _ _ _ hhok (pool_ids_nodup db hids .hard)⟩

/-- C5, counterexample to the claim as stated.  With pools of exactly one
active challenge each — non-empty, as the claim requires — the run
completes but hands each participant a single assignment per category,
not 2: `slice(0, 2)` of a one-element list has one element. -/
theorem quota_fails_on_singleton_pool :
    genOk (generateAssignments "00000000" "H" "adm" exDb2) = true ∧
    (⟨"u1", false⟩ : User) ∈ nonAdmins exDb2 ∧
    (getChallengesByDifficulty exDb2 .easy).length = 1 ∧
    (getChallengesByDifficulty exDb2 .medium).length = 1 ∧
    (getChallengesByDifficulty exDb2 .hard).length = 1 ∧
    (catFilter (generateAssignments "00000000" "H" "adm" exDb2).db.assignments "u1"
        (getChallengesByDifficulty exDb2 .easy)).length = 1 ∧
    ¬ (catFilter (generateAssignments "00000000" "H" "adm" exDb2).db.assignments "u1"
        (getChallengesByDifficulty exDb2 .easy)).length = 2 := by
  decide

/-- Two non-admin participants and two active challenges per individual
difficulty, plus a team challenge. -/
def exDb6 : DB :=
  ⟨[⟨"u1", false⟩, ⟨"u2", false⟩],
   [⟨"e1", .easy, false, true⟩, ⟨"e2", .easy, false, true⟩,
    ⟨"m1", .medium, false, true⟩, ⟨"m2", .medium, false, true⟩,
    ⟨"h1", .hard, false, true⟩, ⟨"h2", .hard, false, true⟩,
    ⟨"t1", .team, false, true⟩],
   [], [], [], [], []⟩

/-- Witness for the amended C5 at a concrete run. -/
theorem quota_per_participant_witness :
    ((catFilter (generateAssignments "00000000" "H" "adm" exDb6).db.assignments
        (User.mk "u1" false).id (getChallengesByDifficulty exDb6 .easy)).length = 2 ∧
      ((catFilter (generateAssignments "00000000" "H" "adm" exDb6).db.assignments
        (User.mk "u1" false).id
        (getChallengesByDifficulty exDb6 .easy)).map Assignment.challengeId).Nodup) ∧
    ((catFilter (generateAssignments "00000000" "H" "adm" exDb6).db.assignments
        (User.mk "u1" false).id (getChallengesByDifficulty exDb6 .medium)).length = 2 ∧
      ((catFilter (generateAssignments "00000000" "H" "adm" exDb6).db.assignments
        (User.mk "u1" false).id
        (getChallengesByDifficulty exDb6 .medium)).map Assignment.challengeId).Nodup) ∧
    ((catFilter (generateAssignments "00000000" "H" "adm" exDb6).db.assignments
        (User.mk "u1" false).id (getChallengesByDifficulty exDb6 .hard)).length = 2 ∧
      ((catFilter (generateAssignments "00000000" "H" "adm" exDb6).db.assignments
        (User.mk "u1" false).id
        (getChallengesByDifficulty exDb6 .hard)).map Assignment.challengeId).Nodup) :=
  quota_per_participant "00000000" "H" "adm" exDb6 (User.mk "u1" false)
    (by decide) (by decide) (by decide) (by decide) (by decide) (by decide) (by decide)

/-- C2, amended.  Target resolution applies to the medium- and hard-pool
draws only: any assignment whose challenge lies in the medium or hard
pool and has `needsTarget = true` carries a resolved target drawn from
the non-admin participants excluding the assignee.  (Easy-pool draws
never resolve a target — see the counterexample.)  Unique challenge ids
(the table primary key) identify the pool member with the drawn
challenge. -/
theorem medium_hard_targets (s h a : String) (db : DB) (x : Assignment)
    (c : Challenge)
    (hids : (db.challenges.map Challenge.id).Nodup)
    (hx : x ∈ (generateAssignments s h a db).db.assignments)
    (hc : c ∈ getChallengesByDifficulty db .medium ∨
      c ∈ getChallengesByDifficulty db .hard)
    (hcid : c.id = x.challengeId)
    (hneeds : c.needsTarget = true) :
    ∃ t, x.targetUserId = some t ∧ t ≠ x.userId ∧
      t ∈ (nonAdmins db).map User.id := by
  obtain ⟨g, hg⟩ := generate_assignments_mem s h a db x hx
  obtain ⟨u, _, g', hx'⟩ := assignAll_mem _ _ _ _ _ g x hg
  obtain ⟨h1, _, h3⟩ := perUser_mem _ _ _ _ _ _ x hx'
  have hcdb : c ∈ db.challenges := by
    rcases hc with hcm | hch
    exacts [pool_subset db .medium c hcm, pool_subset db .hard c hch]
  rcases h3 with ⟨_, hine⟩ | ⟨c2, hc2, hcid2, htrue, _⟩
  · exfalso
    rcases hc with hcm | hch
    · exact pool_ids_disjoint db hids .medium .easy (by decide) c.id
        (List.mem_map_of_mem _ hcm) (hcid ▸ hine)
    · exact pool_ids_disjoint db hids .hard .easy (by decide) c.id
        (List.mem_map_of_mem _ hch) (hcid ▸ hine)
  · have hc2db : c2 ∈ db.challenges := by
      rcases hc2 with hm | hh
      exacts [pool_subset db .medium c2 hm, pool_subset db .hard c2 hh]
    have hceq : c = c2 :=
      challenge_id_inj db hids c hcdb c2 hc2db (by rw [hcid, hcid2])
    obtain ⟨t, ht, hmem⟩ := htrue (hceq ▸ hneeds)
    obtain ⟨htne, htA⟩ := mem_filter_ne _ _ _ hmem
    refine ⟨t, ht, ?_, htA⟩
    rw [h1]
    exact htne

/-- Two non-admin participants; the single easy challenge needs a target,
the others do not. -/
def exDbEasyTarget : DB :=
  ⟨[⟨"u1", false⟩, ⟨"u2", false⟩],
   [⟨"e1", .easy, true, true⟩, ⟨"m1", .medium, false, true⟩,
    ⟨"h1", .hard, false, true⟩, ⟨"t1", .team, false, true⟩],
   [], [], [], [], []⟩

/-- C2, counterexample to the claim as stated.  An easy-pool challenge
with `needsTarget = true` is drawn for a participant, yet the created
assignment carries no target: the easy loop (lines 275-282) never
consults `needsTarget`, unlike the medium and hard loops. -/
theorem easy_target_never_resolved :
    (Challenge.mk "e1" .easy true true) ∈
      getChallengesByDifficulty exDbEasyTarget .easy ∧
    genOk (generateAssignments "00000000" "H" "adm" exDbEasyTarget) = true ∧
    ¬ (∀ x ∈ (generateAssignments "00000000" "H" "adm" exDbEasyTarget).db.assignments,
        ∀ c ∈ getChallengesByDifficulty exDbEasyTarget .easy ++
            getChallengesByDifficulty exDbEasyTarget .medium ++
            getChallengesByDifficulty exDbEasyTarget .hard,
          c.id = x.challengeId → c.needsTarget = true →
            x.targetUserId.isSome = true) := by
  decide

/-- Witness for the amended C2 at a concrete run. -/
theorem medium_hard_targets_witness :
    ∃ t, (Assignment.mk "u1" "m1" (some "u2") CStatus.not_started).targetUserId
        = some t ∧
      t ≠ (Assignment.mk "u1" "m1" (some "u2") CStatus.not_started).userId ∧
      t ∈ (nonAdmins exDbTarget).map User.id :=
  medium_hard_targets "00000000" "H" "adm" exDbTarget
    (Assignment.mk "u1" "m1" (some "u2") CStatus.not_started)
    (Challenge.mk "m1" .medium true true)
    (by decide) (by decide) (Or.inl (by decide)) rfl rfl

end LeGrandJeu
